import Mathlib

/-!
Verification of the layout-resolver specification of this repository.

The repository's engineered surface is a Pug-style template-inheritance
resolver and one Express route handler.  The resolver is specified but not
shipped as code, so its data model and algorithm are modelled here from the
specification text; the route handler is embedded from the source file
`routes/shop.js`.
-/

set_option autoImplicit false

namespace LayoutResolver

/-- Modelled from the spec: block merge modes replace / append / prepend
for a block declaration in a child template (spec section 4, step 3). -/
inductive Mode where
  | replace : Mode
  | append : Mode
  | prepend : Mode
deriving DecidableEq, Repr

/-- Modelled from the spec: a tagged-variant content-node type with the
structural categories text, element, placeholder, control (spec section 9).
A `placeholder` marks the position where a named block's resolved content is
substituted. -/
inductive Node where
  | text : String → Node
  | element : String → List Node → Node
  | placeholder : String → Node
  | control : String → List Node → Node

/-- Modelled from the spec: a block declaration carries a merge mode and an
ordered sequence of replacement content nodes (spec section 3). -/
structure Block where
  mode : Mode
  content : List Node

/-- Modelled from the spec: a parsed template with its top-level node
sequence, an optional extends reference, and a mapping from block name to
block declaration (spec section 3).  The field `extendsRef` stands for the
spec's `extends` reference. -/
structure Template where
  name : String
  nodes : List Node
  extendsRef : Option String
  blocks : List (String × Block)

/-- Modelled from the spec: failure taxonomy of the resolver restricted to
the failures `resolve` itself can raise (spec sections 4 and 7). -/
inductive ResolveError where
  | TemplateNotFound : String → ResolveError
  | CyclicExtends : String → ResolveError
deriving DecidableEq, Repr

/-- Modelled from the spec: a successful resolution carries the resolved
template together with the non-fatal `OrphanBlock` advisories, each naming a
declared block that no placeholder ever places (spec section 7). -/
structure ResolveResult where
  resolved : Template
  orphans : List String

/-- Association-list lookup used for both the loader mapping and the working
block table; returns the value of the first entry with the given key. -/
def alookup {α : Type} : List (String × α) → String → Option α
  | [], _ => none
  | (k, v) :: rest, n => if k = n then some v else alookup rest n

/-- Overwrite the first entry with the given key, or add the entry at the
end when the key is absent. -/
def setEntry {α : Type} : List (String × α) → String → α → List (String × α)
  | [], n, c => [(n, c)]
  | (k, v) :: rest, n, c =>
      if k = n then (n, c) :: rest else (k, v) :: setEntry rest n c

/-- Remove every entry with the given key. -/
def eraseEntry {α : Type} : List (String × α) → String → List (String × α)
  | [], _ => []
  | (k, v) :: rest, n =>
      if k = n then eraseEntry rest n else (k, v) :: eraseEntry rest n

theorem alookup_mem_keys {α : Type} :
    ∀ (l : List (String × α)) (n : String) (v : α),
      alookup l n = some v → n ∈ l.map Prod.fst := by
  intro l
  induction l with
  | nil => intro n v h; simp [alookup] at h
  | cons e rest ih =>
      intro n v h
      by_cases hk : e.1 = n
      · simp [hk]
      · simp only [alookup, hk, if_false] at h
        simp [ih n v h]

theorem eraseEntry_length_lt {α : Type} :
    ∀ (l : List (String × α)) (n : String) (v : α),
      alookup l n = some v → (eraseEntry l n).length < l.length := by
  intro l
  induction l with
  | nil => intro n v h; simp [alookup] at h
  | cons e rest ih =>
      intro n v h
      by_cases hk : e.1 = n
      · have hle : (eraseEntry rest n).length ≤ rest.length := by
          clear h ih
          induction rest with
          | nil => simp [eraseEntry]
          | cons e2 r2 ih2 =>
              by_cases hk2 : e2.1 = n <;>
                simp [eraseEntry, hk2] <;> omega
        simp only [eraseEntry, hk, if_true]
        simp only [List.length_cons]
        omega
      · simp only [alookup, hk, if_false] at h
        simp only [eraseEntry, hk, if_false, List.length_cons]
        exact Nat.succ_lt_succ (ih n v h)

theorem filter_notMem_cons_lt (l : List String) (p : String) (visited : List String)
    (hpl : p ∈ l) (hpv : p ∉ visited) :
    (l.filter (fun n => decide (n ∉ p :: visited))).length <
      (l.filter (fun n => decide (n ∉ visited))).length := by
  have hsub : List.Sublist (l.filter (fun n => decide (n ∉ p :: visited)))
      (l.filter (fun n => decide (n ∉ visited))) := by
    apply List.monotone_filter_right
    intro a ha
    simp only [decide_eq_true_eq] at ha ⊢
    intro hav
    exact ha (List.mem_cons_of_mem _ hav)
  rcases Nat.lt_or_ge (l.filter (fun n => decide (n ∉ p :: visited))).length
      (l.filter (fun n => decide (n ∉ visited))).length with hlt | hge
  · exact hlt
  · exfalso
    have heq := hsub.eq_of_length (Nat.le_antisymm hsub.length_le hge)
    have hmem : p ∈ l.filter (fun n => decide (n ∉ visited)) := by
      simp [List.mem_filter, hpl, hpv]
    rw [← heq] at hmem
    simp [List.mem_filter] at hmem

/-- Number of loader keys not yet visited: the termination measure for the
chain walk. -/
def keysNotVisited (loader : List (String × Template)) (visited : List String) : Nat :=
  ((loader.map Prod.fst).filter (fun n => decide (n ∉ visited))).length

/-- Modelled from the spec: step 1 of `resolve` (spec section 4).  Starting
at the given template, follow `extends` references via the loader until a
template with no `extends` is reached, recording the chain in root-to-child
order.  A name reappearing fails with `CyclicExtends`; a name the loader
cannot resolve fails with `TemplateNotFound`. -/
def buildChainAux (loader : List (String × Template)) (visited : List String)
    (t : Template) : Except ResolveError (List Template) :=
  match t.extendsRef with
  | none => .ok [t]
  | some p =>
      if hv : p ∈ visited then .error (.CyclicExtends p)
      else
        match hl : alookup loader p with
        | none => .error (.TemplateNotFound p)
        | some parent =>
            match buildChainAux loader (p :: visited) parent with
            | .error e => .error e
            | .ok chain => .ok (chain ++ [t])
termination_by keysNotVisited loader visited
decreasing_by
  exact filter_notMem_cons_lt (loader.map Prod.fst) p visited
    (alookup_mem_keys loader p parent hl) hv

/-- Modelled from the spec: step 3 of `resolve` applied to one block
declaration (spec section 4).  A name absent from the working table is
inserted; an existing entry is overwritten, appended to, or prepended to
according to the declared mode. -/
def applyBlock (table : List (String × List Node)) (name : String) (b : Block) :
    List (String × List Node) :=
  match alookup table name with
  | none => table ++ [(name, b.content)]
  | some prev =>
      match b.mode with
      | .replace => setEntry table name b.content
      | .append => setEntry table name (prev ++ b.content)
      | .prepend => setEntry table name (b.content ++ prev)

/-- Apply every block declaration of one template to the working table in
source order. -/
def applyBlocks (table : List (String × List Node)) :
    List (String × Block) → List (String × List Node)
  | [] => table
  | (n, b) :: rest => applyBlocks (applyBlock table n b) rest

/-- Modelled from the spec: step 3 of `resolve` (spec section 4), walking
the non-root part of the chain root-to-child and merging each template's
block declarations into the working table. -/
def mergeChain (table : List (String × List Node)) :
    List Template → List (String × List Node)
  | [] => table
  | t :: rest => mergeChain (applyBlocks table t.blocks) rest

mutual

/-- Block names placed as placeholders in a node, in source order. -/
def nodePlaceholders : Node → List String
  | .text _ => []
  | .placeholder n => [n]
  | .element _ cs => nodesPlaceholders cs
  | .control _ cs => nodesPlaceholders cs

/-- Block names placed as placeholders in a node sequence. -/
def nodesPlaceholders : List Node → List String
  | [] => []
  | n :: ns => nodePlaceholders n ++ nodesPlaceholders ns

end

mutual

/-- Modelled from the spec: step 4 of `resolve` (spec section 4).
Substitute the final resolved content at every placeholder position; the
substituted content is itself resolved against the table with the expanded
name removed, covering nested blocks-within-blocks, and a placeholder whose
name has no table entry contributes no content. -/
def substNode (table : List (String × List Node)) : Node → List Node
  | .text s => [.text s]
  | .element tag cs => [.element tag (substNodes table cs)]
  | .control s cs => [.control s (substNodes table cs)]
  | .placeholder n =>
      match hl : alookup table n with
      | none => []
      | some c => substNodes (eraseEntry table n) c
termination_by n => (table.length, sizeOf n)
decreasing_by
  · exact Prod.Lex.right _ (by simp)
  · exact Prod.Lex.right _ (by simp)
  · exact Prod.Lex.left _ _ (eraseEntry_length_lt table n c hl)

/-- Substitute placeholders in a node sequence. -/
def substNodes (table : List (String × List Node)) : List Node → List Node
  | [] => []
  | n :: ns => substNode table n ++ substNodes table ns
termination_by ns => (table.length, sizeOf ns)
decreasing_by
  · exact Prod.Lex.right _ (by simp; omega)
  · exact Prod.Lex.right _ (by simp)

end

mutual

/-- Modelled from the spec: block names the root references directly or
transitively via nested blocks-within-blocks (spec section 4 step 4):
placeholder names reached while substituting a node, each expanded block
contributing the placeholders of its own content against the table with the
expanded name removed, exactly mirroring the recursion of `substNode`. -/
def reachableNode (table : List (String × List Node)) : Node → List String
  | .text _ => []
  | .element _ cs => reachableNodes table cs
  | .control _ cs => reachableNodes table cs
  | .placeholder n =>
      match hl : alookup table n with
      | none => [n]
      | some c => n :: reachableNodes (eraseEntry table n) c
termination_by n => (table.length, sizeOf n)
decreasing_by
  · exact Prod.Lex.right _ (by simp)
  · exact Prod.Lex.right _ (by simp)
  · exact Prod.Lex.left _ _ (eraseEntry_length_lt table n c hl)

/-- Block names reached from a node sequence. -/
def reachableNodes (table : List (String × List Node)) : List Node → List String
  | [] => []
  | n :: ns => reachableNode table n ++ reachableNodes table ns
termination_by ns => (table.length, sizeOf ns)
decreasing_by
  · exact Prod.Lex.right _ (by simp; omega)
  · exact Prod.Lex.right _ (by simp)

end

/-- Modelled from the spec: step 2 of `resolve` (spec section 4), the
initial working block table holding the root's block declarations with the
root's content standing as the default. -/
def defaultTable (t : Template) : List (String × List Node) :=
  t.blocks.map (fun nb => (nb.1, nb.2.content))

/-- Modelled from the spec: steps 2 to 4 of `resolve` (spec section 4) for
a chain already split into root and non-root part: merge the block tables
root-to-child, substitute the final contents into the root's node tree, and
report every table entry the root never references, directly or
transitively via nested blocks-within-blocks, as an `OrphanBlock`
advisory (spec sections 4 and 7). -/
def assemble (root : Template) (rest : List Template) : ResolveResult :=
  let table := mergeChain (defaultTable root) rest
  { resolved := { name := root.name
                  , nodes := substNodes table root.nodes
                  , extendsRef := none
                  , blocks := root.blocks }
  , orphans := (table.map Prod.fst).filter
      (fun n => decide (n ∉ reachableNodes table root.nodes)) }

/-- Modelled from the spec: the full `resolve` contract (spec section 4):
build the ancestry chain and assemble the resolved template from it. -/
def resolve (t : Template) (loader : List (String × Template)) :
    Except ResolveError ResolveResult :=
  match buildChainAux loader [] t with
  | .error e => .error e
  | .ok [] => .error (.TemplateNotFound t.name)
  | .ok (root :: rest) => .ok (assemble root rest)

/-- Modelled from the spec: the extends walk from a template, with the given
names already visited, revisits the name `n` before reaching a root (spec
section 4 step 1).  Either the template's parent name is already visited, or
that name resolves and the walk from the parent goes on to a revisit; this
covers self-loops, two-cycles and cycles of any length. -/
inductive WalkRevisits (L : List (String × Template)) :
    List String → Template → String → Prop where
  | here (v : List String) (t : Template) (p : String) :
      t.extendsRef = some p → p ∈ v → WalkRevisits L v t p
  | there (v : List String) (t T : Template) (p n : String) :
      t.extendsRef = some p → p ∉ v → alookup L p = some T →
      WalkRevisits L (p :: v) T n → WalkRevisits L v t n

end LayoutResolver

namespace LayoutResolver

theorem buildChainAux_root (L : List (String × Template)) (v : List String)
    (t : Template) (h : t.extendsRef = none) :
    buildChainAux L v t = .ok [t] := by
  rw [buildChainAux.eq_def]
  simp [h]

theorem buildChainAux_cyclic (L : List (String × Template)) (v : List String)
    (t : Template) (p : String) (h : t.extendsRef = some p) (hv : p ∈ v) :
    buildChainAux L v t = .error (.CyclicExtends p) := by
  rw [buildChainAux.eq_def]
  simp [h, hv]

theorem buildChainAux_missing (L : List (String × Template)) (v : List String)
    (t : Template) (p : String) (h : t.extendsRef = some p) (hv : p ∉ v)
    (hl : alookup L p = none) :
    buildChainAux L v t = .error (.TemplateNotFound p) := by
  rw [buildChainAux.eq_def]
  simp only [h]
  rw [dif_neg hv]
  split <;> simp_all

theorem buildChainAux_step (L : List (String × Template)) (v : List String)
    (t parent : Template) (p : String) (h : t.extendsRef = some p) (hv : p ∉ v)
    (hl : alookup L p = some parent) :
    buildChainAux L v t =
      match buildChainAux L (p :: v) parent with
      | .error e => .error e
      | .ok chain => .ok (chain ++ [t]) := by
  rw [buildChainAux.eq_def]
  simp only [h]
  rw [dif_neg hv]
  split <;> simp_all

theorem substNode_text (tbl : List (String × List Node)) (s : String) :
    substNode tbl (.text s) = [.text s] := by
  rw [substNode.eq_def]

theorem substNode_element (tbl : List (String × List Node)) (tag : String)
    (cs : List Node) :
    substNode tbl (.element tag cs) = [.element tag (substNodes tbl cs)] := by
  rw [substNode.eq_def]

theorem substNode_control (tbl : List (String × List Node)) (s : String)
    (cs : List Node) :
    substNode tbl (.control s cs) = [.control s (substNodes tbl cs)] := by
  rw [substNode.eq_def]

theorem substNode_placeholder_none (tbl : List (String × List Node)) (n : String)
    (h : alookup tbl n = none) : substNode tbl (.placeholder n) = [] := by
  rw [substNode.eq_def]
  split <;> simp_all
  split <;> simp_all

theorem substNode_placeholder_some (tbl : List (String × List Node)) (n : String)
    (c : List Node) (h : alookup tbl n = some c) :
    substNode tbl (.placeholder n) = substNodes (eraseEntry tbl n) c := by
  rw [substNode.eq_def]
  split <;> simp_all
  split <;> simp_all

theorem substNodes_nil (tbl : List (String × List Node)) : substNodes tbl [] = [] := by
  rw [substNodes.eq_def]

theorem substNodes_cons (tbl : List (String × List Node)) (n : Node) (ns : List Node) :
    substNodes tbl (n :: ns) = substNode tbl n ++ substNodes tbl ns := by
  rw [substNodes.eq_def]

theorem substNodes_append (tbl : List (String × List Node)) (xs ys : List Node) :
    substNodes tbl (xs ++ ys) = substNodes tbl xs ++ substNodes tbl ys := by
  induction xs with
  | nil => simp [substNodes_nil]
  | cons n ns ih => simp [substNodes_cons, ih]

theorem nodesPlaceholders_append (xs ys : List Node) :
    nodesPlaceholders (xs ++ ys) =
      nodesPlaceholders xs ++ nodesPlaceholders ys := by
  induction xs with
  | nil => simp [nodesPlaceholders]
  | cons n ns ih => simp [nodesPlaceholders, ih]

theorem reachableNode_text (tbl : List (String × List Node)) (s : String) :
    reachableNode tbl (.text s) = [] := by
  rw [reachableNode.eq_def]

theorem reachableNode_element (tbl : List (String × List Node)) (tag : String)
    (cs : List Node) :
    reachableNode tbl (.element tag cs) = reachableNodes tbl cs := by
  rw [reachableNode.eq_def]

theorem reachableNode_control (tbl : List (String × List Node)) (s : String)
    (cs : List Node) :
    reachableNode tbl (.control s cs) = reachableNodes tbl cs := by
  rw [reachableNode.eq_def]

theorem reachableNode_placeholder_none (tbl : List (String × List Node))
    (n : String) (h : alookup tbl n = none) :
    reachableNode tbl (.placeholder n) = [n] := by
  rw [reachableNode.eq_def]
  split <;> simp_all
  split <;> simp_all

theorem reachableNode_placeholder_some (tbl : List (String × List Node))
    (n : String) (c : List Node) (h : alookup tbl n = some c) :
    reachableNode tbl (.placeholder n) = n :: reachableNodes (eraseEntry tbl n) c := by
  rw [reachableNode.eq_def]
  split <;> simp_all
  split <;> simp_all

theorem reachableNodes_nil (tbl : List (String × List Node)) :
    reachableNodes tbl [] = [] := by
  rw [reachableNodes.eq_def]

theorem reachableNodes_cons (tbl : List (String × List Node)) (n : Node)
    (ns : List Node) :
    reachableNodes tbl (n :: ns) = reachableNode tbl n ++ reachableNodes tbl ns := by
  rw [reachableNodes.eq_def]

theorem reachableNodes_append (tbl : List (String × List Node)) (xs ys : List Node) :
    reachableNodes tbl (xs ++ ys)
      = reachableNodes tbl xs ++ reachableNodes tbl ys := by
  induction xs with
  | nil => simp [reachableNodes_nil]
  | cons n ns ih => simp [reachableNodes_cons, ih]

theorem reachableNode_free (tbl : List (String × List Node)) (n : Node) :
    nodePlaceholders n = [] → reachableNode tbl n = [] := by
  refine reachableNode.induct
    (fun tbl n => nodePlaceholders n = [] → reachableNode tbl n = [])
    (fun tbl ns => nodesPlaceholders ns = [] → reachableNodes tbl ns = [])
    ?_ ?_ ?_ ?_ ?_ ?_ ?_ tbl n
  · intro tbl s _
    exact reachableNode_text tbl s
  · intro tbl tag cs ih h
    simp only [nodePlaceholders] at h
    rw [reachableNode_element, ih h]
  · intro tbl s cs ih h
    simp only [nodePlaceholders] at h
    rw [reachableNode_control, ih h]
  · intro tbl m _ h
    simp [nodePlaceholders] at h
  · intro tbl m c _ _ h
    simp [nodePlaceholders] at h
  · intro tbl _
    exact reachableNodes_nil tbl
  · intro tbl m ns ih1 ih2 h
    simp only [nodesPlaceholders, List.append_eq_nil] at h
    rw [reachableNodes_cons, ih1 h.1, ih2 h.2]
    rfl

theorem reachableNodes_free (tbl : List (String × List Node)) (ns : List Node)
    (h : nodesPlaceholders ns = []) : reachableNodes tbl ns = [] := by
  induction ns with
  | nil => exact reachableNodes_nil tbl
  | cons n ns ih =>
      simp only [nodesPlaceholders, List.append_eq_nil] at h
      rw [reachableNodes_cons, reachableNode_free tbl n h.1, ih h.2]
      rfl

theorem alookup_eraseEntry_ne {α : Type} (l : List (String × α)) (b n : String)
    (h : n ≠ b) : alookup (eraseEntry l b) n = alookup l n := by
  induction l with
  | nil => rfl
  | cons e rest ih =>
      obtain ⟨k, v⟩ := e
      by_cases hkb : k = b
      · subst hkb
        have hkn : ¬ k = n := fun he => h he.symm
        simp [eraseEntry, alookup, hkn, ih]
      · by_cases hkn : k = n
        · subst hkn
          simp [eraseEntry, alookup, hkb]
        · simp [eraseEntry, alookup, hkb, hkn, ih]

theorem eraseEntry_comm {α : Type} (l : List (String × α)) (a b : String) :
    eraseEntry (eraseEntry l a) b = eraseEntry (eraseEntry l b) a := by
  induction l with
  | nil => rfl
  | cons e rest ih =>
      obtain ⟨k, v⟩ := e
      by_cases hka : k = a
      · subst hka
        by_cases hkb : k = b
        · subst hkb
          rfl
        · simp [eraseEntry, hkb, ih]
      · by_cases hkb : k = b
        · subst hkb
          simp [eraseEntry, hka, ih]
        · simp [eraseEntry, hka, hkb, ih]

theorem substNode_erase_unreachable (tbl : List (String × List Node)) (x : Node) :
    ∀ b, b ∉ reachableNode tbl x → substNode tbl x = substNode (eraseEntry tbl b) x := by
  refine reachableNode.induct
    (fun tbl x => ∀ b, b ∉ reachableNode tbl x →
      substNode tbl x = substNode (eraseEntry tbl b) x)
    (fun tbl ns => ∀ b, b ∉ reachableNodes tbl ns →
      substNodes tbl ns = substNodes (eraseEntry tbl b) ns)
    ?_ ?_ ?_ ?_ ?_ ?_ ?_ tbl x
  · intro tbl s b _
    rw [substNode_text, substNode_text]
  · intro tbl tag cs ih b h
    rw [reachableNode_element] at h
    rw [substNode_element, substNode_element, ih b h]
  · intro tbl s cs ih b h
    rw [reachableNode_control] at h
    rw [substNode_control, substNode_control, ih b h]
  · intro tbl n hl b h
    rw [reachableNode_placeholder_none tbl n hl] at h
    simp only [List.mem_singleton] at h
    rw [substNode_placeholder_none tbl n hl,
      substNode_placeholder_none (eraseEntry tbl b) n
        (by rw [alookup_eraseEntry_ne tbl b n (fun he => h he.symm)]; exact hl)]
  · intro tbl n c hl ih b h
    rw [reachableNode_placeholder_some tbl n c hl] at h
    simp only [List.mem_cons, not_or] at h
    rw [substNode_placeholder_some tbl n c hl,
      substNode_placeholder_some (eraseEntry tbl b) n c
        (by rw [alookup_eraseEntry_ne tbl b n (fun he => h.1 he.symm)]; exact hl)]
    rw [eraseEntry_comm tbl b n]
    exact ih b h.2
  · intro tbl b _
    rw [substNodes_nil, substNodes_nil]
  · intro tbl x xs ih1 ih2 b h
    rw [reachableNodes_cons] at h
    simp only [List.mem_append, not_or] at h
    rw [substNodes_cons, substNodes_cons, ih1 b h.1, ih2 b h.2]

theorem substNodes_erase_unreachable (tbl : List (String × List Node))
    (ns : List Node) (b : String) (h : b ∉ reachableNodes tbl ns) :
    substNodes tbl ns = substNodes (eraseEntry tbl b) ns := by
  induction ns with
  | nil => rw [substNodes_nil, substNodes_nil]
  | cons x xs ih =>
      rw [reachableNodes_cons] at h
      simp only [List.mem_append, not_or] at h
      rw [substNodes_cons, substNodes_cons, substNode_erase_unreachable tbl x b h.1,
        ih h.2]

theorem substNode_free (tbl : List (String × List Node)) (n : Node) :
    nodePlaceholders n = [] → substNode tbl n = [n] := by
  refine substNode.induct
    (fun tbl n => nodePlaceholders n = [] → substNode tbl n = [n])
    (fun tbl ns => nodesPlaceholders ns = [] → substNodes tbl ns = ns)
    ?_ ?_ ?_ ?_ ?_ ?_ ?_ tbl n
  · intro tbl s _
    exact substNode_text tbl s
  · intro tbl tag cs ih h
    simp only [nodePlaceholders] at h
    rw [substNode_element, ih h]
  · intro tbl s cs ih h
    simp only [nodePlaceholders] at h
    rw [substNode_control, ih h]
  · intro tbl m _ h
    simp [nodePlaceholders] at h
  · intro tbl m c _ _ h
    simp [nodePlaceholders] at h
  · intro tbl _
    exact substNodes_nil tbl
  · intro tbl m ns ih1 ih2 h
    simp only [nodesPlaceholders, List.append_eq_nil] at h
    rw [substNodes_cons, ih1 h.1, ih2 h.2]
    rfl

theorem substNodes_free (tbl : List (String × List Node)) (ns : List Node)
    (h : nodesPlaceholders ns = []) : substNodes tbl ns = ns := by
  induction ns with
  | nil => exact substNodes_nil tbl
  | cons n ns ih =>
      simp only [nodesPlaceholders, List.append_eq_nil] at h
      rw [substNodes_cons, substNode_free tbl n h.1, ih h.2]
      rfl

theorem placeholders_substNode (tbl : List (String × List Node)) (n : Node) :
    nodesPlaceholders (substNode tbl n) = [] := by
  refine substNode.induct
    (fun tbl n => nodesPlaceholders (substNode tbl n) = [])
    (fun tbl ns => nodesPlaceholders (substNodes tbl ns) = [])
    ?_ ?_ ?_ ?_ ?_ ?_ ?_ tbl n
  · intro tbl s
    simp [substNode_text, nodesPlaceholders, nodePlaceholders]
  · intro tbl tag cs ih
    simp [substNode_element, nodesPlaceholders, nodePlaceholders, ih]
  · intro tbl s cs ih
    simp [substNode_control, nodesPlaceholders, nodePlaceholders, ih]
  · intro tbl m hl
    simp [substNode_placeholder_none tbl m hl, nodesPlaceholders]
  · intro tbl m c hl ih
    rw [substNode_placeholder_some tbl m c hl]
    exact ih
  · intro tbl
    simp [substNodes_nil, nodesPlaceholders]
  · intro tbl m ns ih1 ih2
    rw [substNodes_cons, nodesPlaceholders_append, ih1, ih2]
    rfl

theorem placeholders_substNodes (tbl : List (String × List Node)) (ns : List Node) :
    nodesPlaceholders (substNodes tbl ns) = [] := by
  induction ns with
  | nil => simp [substNodes_nil, nodesPlaceholders]
  | cons n ns ih =>
      rw [substNodes_cons, nodesPlaceholders_append, placeholders_substNode, ih]
      rfl

theorem resolve_eq_of_chain (t : Template) (L : List (String × Template))
    (root : Template) (rest : List Template)
    (h : buildChainAux L [] t = .ok (root :: rest)) :
    resolve t L = .ok (assemble root rest) := by
  simp [resolve, h]

theorem buildChainAux_ok_ne_nil (L : List (String × Template))
    (v : List String) (t : Template) :
    ∀ c, buildChainAux L v t = .ok c → c ≠ [] := by
  induction v, t using buildChainAux.induct L with
  | case1 v t h =>
      intro c hc
      rw [buildChainAux_root L v t h] at hc
      simp only [Except.ok.injEq] at hc
      subst hc
      simp
  | case2 v t p h hv =>
      intro c hc
      rw [buildChainAux_cyclic L v t p h hv] at hc
      cases hc
  | case3 v t p h hv hl =>
      intro c hc
      rw [buildChainAux_missing L v t p h hv hl] at hc
      cases hc
  | case4 v t p h hv parent hl e herr ih =>
      intro c hc
      rw [buildChainAux_step L v t parent p h hv hl, herr] at hc
      cases hc
  | case5 v t p h hv parent hl chain hok ih =>
      intro c hc
      rw [buildChainAux_step L v t parent p h hv hl, hok] at hc
      simp only [Except.ok.injEq] at hc
      subst hc
      simp

theorem resolve_ok_elim (t : Template) (L : List (String × Template))
    (r : ResolveResult) (h : resolve t L = .ok r) :
    ∃ root rest, buildChainAux L [] t = .ok (root :: rest) ∧
      r = assemble root rest := by
  cases hb : buildChainAux L [] t with
  | error e =>
      rw [resolve, hb] at h
      cases h
  | ok c =>
      cases c with
      | nil =>
          rw [resolve, hb] at h
          cases h
      | cons root rest =>
          rw [resolve, hb] at h
          simp only [Except.ok.injEq] at h
          exact ⟨root, rest, rfl, h.symm⟩

theorem resolve_error_elim (t : Template) (L : List (String × Template))
    (e : ResolveError) (h : resolve t L = .error e) :
    buildChainAux L [] t = .error e := by
  cases hb : buildChainAux L [] t with
  | error e2 =>
      rw [resolve, hb] at h
      cases h
      rfl
  | ok c =>
      cases c with
      | nil => exact absurd rfl (buildChainAux_ok_ne_nil L [] t [] hb)
      | cons root rest =>
          rw [resolve, hb] at h
          cases h

theorem buildChainAux_notfound_src (L : List (String × Template))
    (v : List String) (t : Template) :
    ∀ n, buildChainAux L v t = .error (.TemplateNotFound n) →
      alookup L n = none := by
  induction v, t using buildChainAux.induct L with
  | case1 v t h =>
      intro n hc
      rw [buildChainAux_root L v t h] at hc
      cases hc
  | case2 v t p h hv =>
      intro n hc
      rw [buildChainAux_cyclic L v t p h hv] at hc
      cases hc
  | case3 v t p h hv hl =>
      intro n hc
      rw [buildChainAux_missing L v t p h hv hl] at hc
      simp only [Except.error.injEq, ResolveError.TemplateNotFound.injEq] at hc
      subst hc
      exact hl
  | case4 v t p h hv parent hl e herr ih =>
      intro n hc
      rw [buildChainAux_step L v t parent p h hv hl, herr] at hc
      simp only [Except.error.injEq] at hc
      subst hc
      exact ih n herr
  | case5 v t p h hv parent hl chain hok ih =>
      intro n hc
      rw [buildChainAux_step L v t parent p h hv hl, hok] at hc
      cases hc

/-- Helper: on a root template whose tree has no placeholders, `resolve`
returns the template unchanged, whatever the loader. -/
theorem resolve_root_fixed (T : Template) (L : List (String × Template))
    (hext : T.extendsRef = none) (hfree : nodesPlaceholders T.nodes = []) :
    (resolve T L).toOption.map ResolveResult.resolved = some T := by
  rw [resolve_eq_of_chain T L T [] (buildChainAux_root L [] T hext)]
  simp only [Except.toOption, Option.map_some', Option.some.injEq]
  show ({ name := T.name
        , nodes := substNodes (mergeChain (defaultTable T) []) T.nodes
        , extendsRef := none
        , blocks := T.blocks } : Template) = T
  rw [show mergeChain (defaultTable T) [] = defaultTable T from rfl]
  rw [substNodes_free _ _ hfree]
  obtain ⟨nm, ns, er, bs⟩ := T
  simp only at hext
  rw [hext]

/-- Example: a root layout placing block "content" with a default. -/
def exRoot : Template :=
  { name := "layout"
  , nodes := [Node.element "html" [Node.placeholder "content"]]
  , extendsRef := none
  , blocks := [("content", { mode := Mode.replace, content := [Node.text "default"] })] }

/-- Example: a child overriding block "content" with replace mode. -/
def exChild : Template :=
  { name := "shop"
  , nodes := []
  , extendsRef := some "layout"
  , blocks := [("content", { mode := Mode.replace, content := [Node.text "shop-body"] })] }

/-- Example: a placeholder-free root template. -/
def exPlain : Template :=
  { name := "plain"
  , nodes := [Node.text "hello"]
  , extendsRef := none
  , blocks := [] }

/-- Example: a child whose parent the loader cannot resolve. -/
def exMissing : Template :=
  { name := "lonely"
  , nodes := []
  , extendsRef := some "absent"
  , blocks := [] }

/-- Example: first half of a two-template extends cycle. -/
def exCycleA : Template :=
  { name := "a", nodes := [], extendsRef := some "b", blocks := [] }

/-- Example: second half of a two-template extends cycle. -/
def exCycleB : Template :=
  { name := "b", nodes := [], extendsRef := some "a", blocks := [] }

/-- C3 counterexample: a root template whose tree contains a block
placeholder with default content is changed by `resolve` (the placeholder is
substituted with the default), so `resolve` is not the identity on it. -/
theorem resolve_root_not_identity_on_placeholders :
    (resolve exRoot []).toOption.map ResolveResult.resolved ≠ some exRoot := by
  rw [resolve_eq_of_chain exRoot [] exRoot [] (buildChainAux_root [] [] exRoot rfl)]
  simp only [Except.toOption, Option.map_some', ne_eq, Option.some.injEq]
  intro h
  have hnodes := congrArg Template.nodes h
  rw [show (assemble exRoot []).resolved.nodes =
        substNodes (defaultTable exRoot) exRoot.nodes from rfl] at hnodes
  rw [show exRoot.nodes = [Node.element "html" [Node.placeholder "content"]] from rfl]
    at hnodes
  rw [substNodes_cons, substNodes_nil, substNode_element, substNodes_cons,
    substNodes_nil,
    substNode_placeholder_some _ _ [Node.text "default"] (by rfl)] at hnodes
  rw [substNodes_free _ _ (by rfl)] at hnodes
  simp [exRoot] at hnodes

/-- C3 (amended): resolve is the identity on root templates whose node tree
contains no block placeholders; a root template containing placeholders has
them substituted with default content, so it is in general changed. -/
theorem resolve_root_identity (T : Template) (L : List (String × Template))
    (hext : T.extendsRef = none) (hfree : nodesPlaceholders T.nodes = []) :
    (resolve T L).toOption.map ResolveResult.resolved = some T :=
  resolve_root_fixed T L hext hfree

/-- C3 witness at a concrete placeholder-free root template. -/
theorem resolve_root_identity_witness :
    exPlain.extendsRef = none ∧ nodesPlaceholders exPlain.nodes = [] ∧
      (resolve exPlain []).toOption.map ResolveResult.resolved = some exPlain := by
  refine ⟨rfl, rfl, resolve_root_identity exPlain [] rfl rfl⟩

/-- C7: every successful resolve returns a template with no extends
reference and no remaining block-placeholder markers anywhere in its tree. -/
theorem resolve_ok_no_extends_no_placeholders (t : Template)
    (L : List (String × Template)) (r : ResolveResult)
    (h : resolve t L = .ok r) :
    r.resolved.extendsRef = none ∧ nodesPlaceholders r.resolved.nodes = [] := by
  obtain ⟨root, rest, hc, hr⟩ := resolve_ok_elim t L r h
  subst hr
  exact ⟨rfl, placeholders_substNodes _ _⟩

/-- C7 witness at a concrete one-template chain. -/
theorem resolve_ok_no_extends_no_placeholders_witness :
    resolve exPlain [] = .ok (assemble exPlain []) ∧
      (assemble exPlain []).resolved.extendsRef = none ∧
      nodesPlaceholders (assemble exPlain []).resolved.nodes = [] := by
  have h : resolve exPlain [] = .ok (assemble exPlain []) :=
    resolve_eq_of_chain exPlain [] exPlain [] (buildChainAux_root [] [] exPlain rfl)
  exact ⟨h, resolve_ok_no_extends_no_placeholders exPlain [] _ h⟩

/-- C9: resolve is idempotent.  Directly: a template already in resolved
form (no extends reference, no placeholders) is returned unchanged under
every loader.  On outputs: the resolved template of any successful resolve
is itself returned unchanged when resolved again under any loader. -/
theorem resolve_idempotent (t : Template) (L : List (String × Template)) :
    (t.extendsRef = none → nodesPlaceholders t.nodes = [] →
      (resolve t L).toOption.map ResolveResult.resolved = some t) ∧
    (∀ r L2, resolve t L = .ok r →
      (resolve r.resolved L2).toOption.map ResolveResult.resolved
        = some r.resolved) := by
  constructor
  · intro hext hfree
    exact resolve_root_fixed t L hext hfree
  · intro r L2 h
    obtain ⟨root, rest, hc, hr⟩ := resolve_ok_elim t L r h
    subst hr
    exact resolve_root_fixed _ L2 rfl (placeholders_substNodes _ _)

/-- C9 witness: resolving a concrete resolved template is the identity, and
resolving the output of a concrete resolve again returns it unchanged. -/
theorem resolve_idempotent_witness :
    ((resolve exPlain []).toOption.map ResolveResult.resolved = some exPlain) ∧
      (resolve (assemble exPlain []).resolved []).toOption.map
        ResolveResult.resolved = some (assemble exPlain []).resolved := by
  have h : resolve exPlain [] = .ok (assemble exPlain []) :=
    resolve_eq_of_chain exPlain [] exPlain [] (buildChainAux_root [] [] exPlain rfl)
  exact ⟨(resolve_idempotent exPlain []).1 rfl rfl,
    (resolve_idempotent exPlain []).2 (assemble exPlain []) [] h⟩

theorem buildChainAux_of_walkRevisits (L : List (String × Template))
    (v : List String) (t : Template) (n : String) (h : WalkRevisits L v t n) :
    buildChainAux L v t = .error (.CyclicExtends n) := by
  induction h with
  | here v t p hext hv => exact buildChainAux_cyclic L v t p hext hv
  | there v t T p n hext hv hl hw ih =>
      rw [buildChainAux_step L v t T p hext hv hl, ih]

theorem walkRevisits_of_buildChainAux (L : List (String × Template))
    (v : List String) (t : Template) :
    ∀ n, buildChainAux L v t = .error (.CyclicExtends n) →
      WalkRevisits L v t n := by
  induction v, t using buildChainAux.induct L with
  | case1 v t hext =>
      intro n h
      rw [buildChainAux_root L v t hext] at h
      cases h
  | case2 v t p hext hv =>
      intro n h
      rw [buildChainAux_cyclic L v t p hext hv] at h
      simp only [Except.error.injEq, ResolveError.CyclicExtends.injEq] at h
      subst h
      exact WalkRevisits.here v t p hext hv
  | case3 v t p hext hv hl =>
      intro n h
      rw [buildChainAux_missing L v t p hext hv hl] at h
      simp at h
  | case4 v t p hext hv parent hl e herr ih =>
      intro n h
      rw [buildChainAux_step L v t parent p hext hv hl, herr] at h
      simp only [Except.error.injEq] at h
      subst h
      exact WalkRevisits.there v t parent p n hext hv hl (ih n herr)
  | case5 v t p hext hv parent hl chain hok ih =>
      intro n h
      rw [buildChainAux_step L v t parent p hext hv hl, hok] at h
      cases h

/-- C4: `resolve` is a total function, defined by well-founded recursion on
the not-yet-visited loader keys, so it terminates on every input including
cyclic loaders; and it returns the `CyclicExtends` failure exactly on the
templates whose extends chain revisits a name — self-loops, two-cycles and
cycles of any length alike: every revisiting walk forces the failure with
the revisited name, and the failure only arises from such a walk. -/
theorem resolve_cyclic_chain (t : Template) (L : List (String × Template)) :
    (∀ n, WalkRevisits L [] t n → resolve t L = .error (.CyclicExtends n)) ∧
    (∀ n, resolve t L = .error (.CyclicExtends n) → WalkRevisits L [] t n) := by
  constructor
  · intro n h
    rw [resolve, buildChainAux_of_walkRevisits L [] t n h]
  · intro n h
    exact walkRevisits_of_buildChainAux L [] t n (resolve_error_elim t L _ h)

/-- Example: a template extending its own name. -/
def exSelf : Template :=
  { name := "selfy", nodes := [], extendsRef := some "selfy", blocks := [] }

/-- C4 witness: both the concrete two-template cycle a extends b, b extends
a, and the concrete self-loop, fail with `CyclicExtends` of the revisited
name. -/
theorem resolve_cyclic_chain_witness :
    resolve exCycleA [("a", exCycleA), ("b", exCycleB)]
      = .error (.CyclicExtends "b") ∧
    resolve exSelf [("selfy", exSelf)] = .error (.CyclicExtends "selfy") := by
  constructor
  · exact (resolve_cyclic_chain exCycleA [("a", exCycleA), ("b", exCycleB)]).1 "b"
      (WalkRevisits.there [] exCycleA exCycleB "b" "b" rfl (by simp) rfl
        (WalkRevisits.there ["b"] exCycleB exCycleA "a" "b" rfl (by simp) rfl
          (WalkRevisits.here ["a", "b"] exCycleA "b" rfl (by simp))))
  · exact (resolve_cyclic_chain exSelf [("selfy", exSelf)]).1 "selfy"
      (WalkRevisits.there [] exSelf exSelf "selfy" "selfy" rfl (by simp) rfl
        (WalkRevisits.here ["selfy"] exSelf "selfy" rfl (by simp)))

/-- C5: a name in the chain that the loader cannot resolve fails the whole
resolve with `TemplateNotFound` carrying that name: a missing direct parent
fails so; a failure of the deeper chain walk propagates unchanged; every
`TemplateNotFound` failure carries a name the loader cannot resolve; and an
erroneous resolve returns no resolved tree at all. -/
theorem resolve_missing_ancestor (t : Template) (L : List (String × Template)) :
    (∀ p, t.extendsRef = some p → alookup L p = none →
      resolve t L = .error (.TemplateNotFound p)) ∧
    (∀ p parent e, t.extendsRef = some p → alookup L p = some parent →
      buildChainAux L [p] parent = .error e → resolve t L = .error e) ∧
    (∀ n, resolve t L = .error (.TemplateNotFound n) → alookup L n = none) ∧
    (∀ n r, resolve t L = .error (.TemplateNotFound n) → resolve t L ≠ .ok r) := by
  refine ⟨?_, ?_, ?_, ?_⟩
  · intro p hp hl
    rw [resolve, buildChainAux_missing L [] t p hp (by simp) hl]
  · intro p parent e hp hl herr
    rw [resolve, buildChainAux_step L [] t parent p hp (by simp) hl, herr]
  · intro n h
    exact buildChainAux_notfound_src L [] t n (resolve_error_elim t L _ h)
  · intro n r h
    rw [h]
    intro hc
    cases hc

/-- C5 witness: a concrete child whose parent name the empty loader cannot
resolve. -/
theorem resolve_missing_ancestor_witness :
    resolve exMissing [] = .error (.TemplateNotFound "absent") ∧
      alookup ([] : List (String × Template)) "absent" = none :=
  ⟨(resolve_missing_ancestor exMissing []).1 "absent" rfl rfl,
    (resolve_missing_ancestor exMissing []).2.2.1 "absent"
      ((resolve_missing_ancestor exMissing []).1 "absent" rfl rfl)⟩

/-- C1: in a two-level chain whose parent P places block "content" with
default content A at some position of its tree and whose child C overrides
"content" with mode replace and content B, resolve of C succeeds and yields
P's tree with exactly B at the placeholder position. -/
theorem resolve_two_level_replace (L : List (String × Template))
    (P C : Template) (pname : String) (mP : Mode)
    (A B pre post : List Node)
    (hL : alookup L pname = some P)
    (hPe : P.extendsRef = none)
    (hPn : P.nodes = pre ++ Node.placeholder "content" :: post)
    (hPb : P.blocks = [("content", { mode := mP, content := A })])
    (hCe : C.extendsRef = some pname)
    (hCb : C.blocks = [("content", { mode := Mode.replace, content := B })])
    (hpre : nodesPlaceholders pre = [])
    (hpost : nodesPlaceholders post = [])
    (hB : nodesPlaceholders B = []) :
    resolve C L = .ok { resolved := { name := P.name
                                      , nodes := pre ++ B ++ post
                                      , extendsRef := none
                                      , blocks := P.blocks }
                      , orphans := [] } := by
  have hc : buildChainAux L [] C = .ok [P, C] := by
    rw [buildChainAux_step L [] C P pname hCe (by simp) hL,
      buildChainAux_root L [pname] P hPe]
    rfl
  rw [resolve_eq_of_chain C L P [C] hc]
  have htab : mergeChain (defaultTable P) [C] = [("content", B)] := by
    simp [mergeChain, defaultTable, hPb, hCb, applyBlocks, applyBlock,
      alookup, setEntry]
  have hsub : substNodes [("content", B)] P.nodes = pre ++ B ++ post := by
    rw [hPn, substNodes_append, substNodes_cons,
      substNode_placeholder_some _ _ B (by simp [alookup]),
      substNodes_free _ _ hpre, substNodes_free _ _ hpost]
    rw [show eraseEntry [("content", B)] "content" = [] by simp [eraseEntry]]
    rw [substNodes_free _ _ hB, List.append_assoc]
  have hreach : reachableNodes [("content", B)] P.nodes = ["content"] := by
    rw [hPn, reachableNodes_append, reachableNodes_free _ _ hpre,
      reachableNodes_cons,
      reachableNode_placeholder_some _ _ B (by simp [alookup])]
    rw [show eraseEntry [("content", B)] "content" = [] by simp [eraseEntry]]
    rw [reachableNodes_free _ _ hB, reachableNodes_free _ _ hpost]
    simp
  simp [assemble, htab, hsub, hreach]

/-- Example: a root layout with a top-level "content" placeholder. -/
def exLayoutFlat : Template :=
  { name := "layout2"
  , nodes := [Node.text "hdr", Node.placeholder "content", Node.text "ftr"]
  , extendsRef := none
  , blocks := [("content", { mode := Mode.replace, content := [Node.text "default"] })] }

/-- Example: a child of `exLayoutFlat` replacing block "content". -/
def exShopFlat : Template :=
  { name := "shop2"
  , nodes := []
  , extendsRef := some "layout2"
  , blocks := [("content", { mode := Mode.replace, content := [Node.text "shop-body"] })] }

/-- C1 witness at a concrete parent/child pair. -/
theorem resolve_two_level_replace_witness :
    resolve exShopFlat [("layout2", exLayoutFlat)]
      = .ok { resolved := { name := exLayoutFlat.name
                            , nodes := [Node.text "hdr"] ++ [Node.text "shop-body"]
                                ++ [Node.text "ftr"]
                            , extendsRef := none
                            , blocks := exLayoutFlat.blocks }
            , orphans := [] } :=
  resolve_two_level_replace [("layout2", exLayoutFlat)] exLayoutFlat exShopFlat
    "layout2" Mode.replace [Node.text "default"] [Node.text "shop-body"]
    [Node.text "hdr"] [Node.text "ftr"]
    rfl rfl rfl rfl rfl rfl rfl rfl rfl

/-- C2: append accumulates in root-to-child ancestry order (grandparent
default X, parent appends Y, child appends Z gives X then Y then Z at the
placeholder), and prepend reverses (parent default X, child prepends Z gives
Z then X). -/
theorem resolve_append_prepend_order :
    (∀ (L : List (String × Template)) (G Pa Ch : Template)
        (gname paname bn : String) (mG : Mode)
        (X Y Z gpre gpost : List Node),
      alookup L gname = some G → alookup L paname = some Pa →
      gname ≠ paname →
      G.extendsRef = none →
      G.nodes = gpre ++ Node.placeholder bn :: gpost →
      G.blocks = [(bn, { mode := mG, content := X })] →
      Pa.extendsRef = some gname →
      Pa.blocks = [(bn, { mode := Mode.append, content := Y })] →
      Ch.extendsRef = some paname →
      Ch.blocks = [(bn, { mode := Mode.append, content := Z })] →
      nodesPlaceholders gpre = [] → nodesPlaceholders gpost = [] →
      nodesPlaceholders (X ++ Y ++ Z) = [] →
      resolve Ch L = .ok { resolved := { name := G.name
                                          , nodes := gpre ++ (X ++ Y ++ Z) ++ gpost
                                          , extendsRef := none
                                          , blocks := G.blocks }
                          , orphans := [] }) ∧
    (∀ (L : List (String × Template)) (P C : Template)
        (pname bn : String) (mP : Mode) (X Z pre post : List Node),
      alookup L pname = some P →
      P.extendsRef = none →
      P.nodes = pre ++ Node.placeholder bn :: post →
      P.blocks = [(bn, { mode := mP, content := X })] →
      C.extendsRef = some pname →
      C.blocks = [(bn, { mode := Mode.prepend, content := Z })] →
      nodesPlaceholders pre = [] → nodesPlaceholders post = [] →
      nodesPlaceholders (Z ++ X) = [] →
      resolve C L = .ok { resolved := { name := P.name
                                        , nodes := pre ++ (Z ++ X) ++ post
                                        , extendsRef := none
                                        , blocks := P.blocks }
                        , orphans := [] }) := by
  constructor
  · intro L G Pa Ch gname paname bn mG X Y Z gpre gpost
      hLg hLp hne hGe hGn hGb hPae hPab hChe hChb hgpre hgpost hXYZ
    have hc : buildChainAux L [] Ch = .ok [G, Pa, Ch] := by
      rw [buildChainAux_step L [] Ch Pa paname hChe (by simp) hLp,
        buildChainAux_step L [paname] Pa G gname hPae (by simp [hne]) hLg,
        buildChainAux_root L [gname, paname] G hGe]
      rfl
    rw [resolve_eq_of_chain Ch L G [Pa, Ch] hc]
    have htab : mergeChain (defaultTable G) [Pa, Ch] = [(bn, X ++ Y ++ Z)] := by
      simp [mergeChain, defaultTable, hGb, hPab, hChb, applyBlocks, applyBlock,
        alookup, setEntry]
    have hsub : substNodes [(bn, X ++ Y ++ Z)] G.nodes
        = gpre ++ (X ++ Y ++ Z) ++ gpost := by
      rw [hGn, substNodes_append, substNodes_cons,
        substNode_placeholder_some _ _ (X ++ Y ++ Z) (by simp [alookup]),
        substNodes_free _ _ hgpre, substNodes_free _ _ hgpost]
      rw [show eraseEntry [(bn, X ++ Y ++ Z)] bn = [] by simp [eraseEntry]]
      rw [substNodes_free _ _ hXYZ]
      simp
    have hreach : reachableNodes [(bn, X ++ Y ++ Z)] G.nodes = [bn] := by
      rw [hGn, reachableNodes_append, reachableNodes_free _ _ hgpre,
        reachableNodes_cons,
        reachableNode_placeholder_some _ _ (X ++ Y ++ Z) (by simp [alookup])]
      rw [show eraseEntry [(bn, X ++ Y ++ Z)] bn = [] by simp [eraseEntry]]
      rw [reachableNodes_free _ _ hXYZ, reachableNodes_free _ _ hgpost]
      simp
    simp
    simp only [assemble]
    rw [htab, hsub, hreach]
    simp
  · intro L P C pname bn mP X Z pre post
      hL hPe hPn hPb hCe hCb hpre hpost hZX
    have hc : buildChainAux L [] C = .ok [P, C] := by
      rw [buildChainAux_step L [] C P pname hCe (by simp) hL,
        buildChainAux_root L [pname] P hPe]
      rfl
    rw [resolve_eq_of_chain C L P [C] hc]
    have htab : mergeChain (defaultTable P) [C] = [(bn, Z ++ X)] := by
      simp [mergeChain, defaultTable, hPb, hCb, applyBlocks, applyBlock,
        alookup, setEntry]
    have hsub : substNodes [(bn, Z ++ X)] P.nodes = pre ++ (Z ++ X) ++ post := by
      rw [hPn, substNodes_append, substNodes_cons,
        substNode_placeholder_some _ _ (Z ++ X) (by simp [alookup]),
        substNodes_free _ _ hpre, substNodes_free _ _ hpost]
      rw [show eraseEntry [(bn, Z ++ X)] bn = [] by simp [eraseEntry]]
      rw [substNodes_free _ _ hZX]
      simp
    have hreach : reachableNodes [(bn, Z ++ X)] P.nodes = [bn] := by
      rw [hPn, reachableNodes_append, reachableNodes_free _ _ hpre,
        reachableNodes_cons,
        reachableNode_placeholder_some _ _ (Z ++ X) (by simp [alookup])]
      rw [show eraseEntry [(bn, Z ++ X)] bn = [] by simp [eraseEntry]]
      rw [reachableNodes_free _ _ hZX, reachableNodes_free _ _ hpost]
      simp
    simp
    simp only [assemble]
    rw [htab, hsub, hreach]
    simp

/-- Example: a grandparent layout placing block "scripts" with default X. -/
def exGrand : Template :=
  { name := "base"
  , nodes := [Node.placeholder "scripts"]
  , extendsRef := none
  , blocks := [("scripts", { mode := Mode.replace, content := [Node.text "X"] })] }

/-- Example: a middle template appending Y to block "scripts". -/
def exMid : Template :=
  { name := "mid"
  , nodes := []
  , extendsRef := some "base"
  , blocks := [("scripts", { mode := Mode.append, content := [Node.text "Y"] })] }

/-- Example: a leaf template appending Z to block "scripts". -/
def exLeaf : Template :=
  { name := "leaf"
  , nodes := []
  , extendsRef := some "mid"
  , blocks := [("scripts", { mode := Mode.append, content := [Node.text "Z"] })] }

/-- Example: a child prepending Z to block "scripts" of `exGrand`. -/
def exPrep : Template :=
  { name := "prep"
  , nodes := []
  , extendsRef := some "base"
  , blocks := [("scripts", { mode := Mode.prepend, content := [Node.text "Z"] })] }

/-- C2 witness: concrete append chain X, Y, Z and concrete prepend pair. -/
theorem resolve_append_prepend_order_witness :
    (resolve exLeaf [("base", exGrand), ("mid", exMid)]
      = .ok { resolved := { name := exGrand.name
                            , nodes := [] ++ ([Node.text "X"] ++ [Node.text "Y"]
                                ++ [Node.text "Z"]) ++ []
                            , extendsRef := none
                            , blocks := exGrand.blocks }
            , orphans := [] }) ∧
    (resolve exPrep [("base", exGrand)]
      = .ok { resolved := { name := exGrand.name
                            , nodes := [] ++ ([Node.text "Z"] ++ [Node.text "X"]) ++ []
                            , extendsRef := none
                            , blocks := exGrand.blocks }
            , orphans := [] }) :=
  ⟨resolve_append_prepend_order.1 [("base", exGrand), ("mid", exMid)]
      exGrand exMid exLeaf "base" "mid" "scripts" Mode.replace
      [Node.text "X"] [Node.text "Y"] [Node.text "Z"] [] []
      rfl rfl (by decide) rfl rfl rfl rfl rfl rfl rfl rfl rfl rfl,
    resolve_append_prepend_order.2 [("base", exGrand)]
      exGrand exPrep "base" "scripts" Mode.replace
      [Node.text "X"] [Node.text "Z"] [] []
      rfl rfl rfl rfl rfl rfl rfl rfl rfl⟩

theorem keys_setEntry {α : Type} (l : List (String × α)) (n : String) (c : α)
    (m : String) :
    m ∈ (setEntry l n c).map Prod.fst ↔ m = n ∨ m ∈ l.map Prod.fst := by
  induction l with
  | nil => simp [setEntry]
  | cons e rest ih =>
      obtain ⟨k, v⟩ := e
      by_cases hk : k = n
      · subst hk
        simp only [setEntry]
        rw [if_pos trivial]
        simp only [List.map_cons, List.mem_cons]
        tauto
      · simp only [setEntry]
        rw [if_neg hk]
        simp only [List.map_cons, List.mem_cons, ih]
        tauto

theorem keys_applyBlock (tbl : List (String × List Node)) (n : String) (b : Block)
    (m : String) :
    m ∈ (applyBlock tbl n b).map Prod.fst ↔ m = n ∨ m ∈ tbl.map Prod.fst := by
  rw [applyBlock]
  cases alookup tbl n with
  | none =>
      simp only [List.map_append, List.mem_append, List.map_cons, List.map_nil,
        List.mem_singleton]
      tauto
  | some prev => cases b.mode <;> exact keys_setEntry tbl n _ m

theorem keys_applyBlocks_mono (bs : List (String × Block))
    (tbl : List (String × List Node)) (m : String)
    (h : m ∈ tbl.map Prod.fst) : m ∈ (applyBlocks tbl bs).map Prod.fst := by
  induction bs generalizing tbl with
  | nil => exact h
  | cons e rest ih =>
      obtain ⟨n, b⟩ := e
      exact ih (applyBlock tbl n b) ((keys_applyBlock tbl n b m).mpr (Or.inr h))

theorem keys_applyBlocks_declared (bs : List (String × Block))
    (tbl : List (String × List Node)) (b : String) (blk : Block)
    (h : (b, blk) ∈ bs) : b ∈ (applyBlocks tbl bs).map Prod.fst := by
  induction bs generalizing tbl with
  | nil => cases h
  | cons e rest ih =>
      obtain ⟨n, c⟩ := e
      cases h with
      | head =>
          exact keys_applyBlocks_mono rest _ b
            ((keys_applyBlock tbl b blk b).mpr (Or.inl rfl))
      | tail _ hmem => exact ih (applyBlock tbl n c) hmem

theorem keys_mergeChain_mono (chain : List Template)
    (tbl : List (String × List Node)) (m : String)
    (h : m ∈ tbl.map Prod.fst) : m ∈ (mergeChain tbl chain).map Prod.fst := by
  induction chain generalizing tbl with
  | nil => exact h
  | cons T rest ih =>
      exact ih (applyBlocks tbl T.blocks) (keys_applyBlocks_mono T.blocks tbl m h)

theorem keys_mergeChain_declared (chain : List Template)
    (tbl : List (String × List Node)) (T : Template) (b : String) (blk : Block)
    (hT : T ∈ chain) (hdecl : (b, blk) ∈ T.blocks) :
    b ∈ (mergeChain tbl chain).map Prod.fst := by
  induction chain generalizing tbl with
  | nil => cases hT
  | cons T2 rest ih =>
      cases hT with
      | head =>
          exact keys_mergeChain_mono rest _ b
            (keys_applyBlocks_declared T.blocks tbl b blk hdecl)
      | tail _ hmem => exact ih (applyBlocks tbl T2.blocks) hmem

/-- C6: when a non-root template of the chain declares a block name that no
ancestor ever places — the root references it neither directly nor
transitively via nested blocks-within-blocks — resolve still succeeds, the
`OrphanBlock` advisory list of the successful result names that block, and
the resolved tree omits that block's content: it equals the tree produced
from the table with that block's entry removed. -/
theorem resolve_orphan_advisory (t : Template) (L : List (String × Template))
    (root T : Template) (rest : List Template) (b : String) (blk : Block)
    (hchain : buildChainAux L [] t = .ok (root :: rest))
    (hT : T ∈ rest) (hdecl : (b, blk) ∈ T.blocks)
    (hnp : b ∉ reachableNodes (mergeChain (defaultTable root) rest) root.nodes) :
    ∃ r, resolve t L = .ok r ∧ b ∈ r.orphans ∧
      r.resolved.nodes = substNodes
        (eraseEntry (mergeChain (defaultTable root) rest) b) root.nodes := by
  refine ⟨assemble root rest, resolve_eq_of_chain t L root rest hchain, ?_, ?_⟩
  · show b ∈ ((mergeChain (defaultTable root) rest).map Prod.fst).filter
        (fun n => decide
          (n ∉ reachableNodes (mergeChain (defaultTable root) rest) root.nodes))
    rw [List.mem_filter]
    exact ⟨keys_mergeChain_declared rest (defaultTable root) T b blk hT hdecl,
      by simpa using hnp⟩
  · show substNodes (mergeChain (defaultTable root) rest) root.nodes
      = substNodes (eraseEntry (mergeChain (defaultTable root) rest) b) root.nodes
    exact substNodes_erase_unreachable _ _ b hnp

/-- Example: a child declaring block "sidebar" that no ancestor places. -/
def exOrphan : Template :=
  { name := "widget"
  , nodes := []
  , extendsRef := some "plain"
  , blocks := [("sidebar", { mode := Mode.replace, content := [Node.text "S"] })] }

/-- C6 witness: the concrete orphan block "sidebar" over the placeholder-free
root `exPlain`: resolve succeeds, reports the advisory and omits the
sidebar content. -/
theorem resolve_orphan_advisory_witness :
    buildChainAux [("plain", exPlain)] [] exOrphan = .ok [exPlain, exOrphan] ∧
      ∃ r, resolve exOrphan [("plain", exPlain)] = .ok r ∧ "sidebar" ∈ r.orphans ∧
        r.resolved.nodes = substNodes
          (eraseEntry (mergeChain (defaultTable exPlain) [exOrphan]) "sidebar")
          exPlain.nodes := by
  have hchain : buildChainAux [("plain", exPlain)] [] exOrphan
      = .ok [exPlain, exOrphan] := by
    rw [buildChainAux_step [("plain", exPlain)] [] exOrphan exPlain "plain"
        rfl (by simp) rfl,
      buildChainAux_root [("plain", exPlain)] ["plain"] exPlain rfl]
    rfl
  have hnp : "sidebar" ∉ reachableNodes
      (mergeChain (defaultTable exPlain) [exOrphan]) exPlain.nodes := by
    rw [show exPlain.nodes = [Node.text "hello"] from rfl,
      reachableNodes_cons, reachableNode_text, reachableNodes_nil]
    simp
  exact ⟨hchain, resolve_orphan_advisory exOrphan [("plain", exPlain)]
    exPlain exOrphan [exOrphan] "sidebar"
    { mode := Mode.replace, content := [Node.text "S"] }
    hchain (by simp) (by simp [exOrphan]) hnp⟩

/-- Replace a template's top-level node sequence, keeping name, extends
reference and block declarations. -/
def setNodes (t : Template) (ns : List Node) : Template :=
  { t with nodes := ns }

/-- Replace the top-level node sequence of every loader entry named `pn`. -/
def modifyNodes (L : List (String × Template)) (pn : String) (ns : List Node) :
    List (String × Template) :=
  L.map (fun e => if e.1 = pn then (e.1, setNodes e.2 ns) else e)

theorem alookup_modifyNodes (L : List (String × Template)) (pn : String)
    (ns : List Node) (m : String) :
    alookup (modifyNodes L pn ns) m =
      if m = pn then (alookup L m).map (fun T => setNodes T ns)
      else alookup L m := by
  induction L with
  | nil => by_cases hm : m = pn <;> simp [modifyNodes, alookup, hm]
  | cons e rest ih =>
      obtain ⟨k, v⟩ := e
      have hstep : modifyNodes ((k, v) :: rest) pn ns
          = (if k = pn then (k, setNodes v ns) else (k, v))
            :: modifyNodes rest pn ns := by
        simp [modifyNodes]
      rw [hstep]
      by_cases hkpn : k = pn
      · subst hkpn
        rw [if_pos rfl]
        by_cases hkm : k = m
        · subst hkm
          rw [show alookup ((k, setNodes v ns) :: modifyNodes rest k ns) k
              = some (setNodes v ns) from by simp [alookup]]
          rw [if_pos rfl]
          rw [show alookup ((k, v) :: rest) k = some v from by simp [alookup]]
          rfl
        · rw [show alookup ((k, setNodes v ns) :: modifyNodes rest k ns) m
              = alookup (modifyNodes rest k ns) m from by simp [alookup, hkm]]
          rw [show alookup ((k, v) :: rest) m = alookup rest m from by
            simp [alookup, hkm]]
          exact ih
      · rw [if_neg hkpn]
        by_cases hkm : k = m
        · subst hkm
          rw [show alookup ((k, v) :: modifyNodes rest pn ns) k = some v from by
            simp [alookup]]
          rw [show alookup ((k, v) :: rest) k = some v from by simp [alookup]]
          rw [if_neg hkpn]
        · rw [show alookup ((k, v) :: modifyNodes rest pn ns) m
              = alookup (modifyNodes rest pn ns) m from by simp [alookup, hkm]]
          rw [show alookup ((k, v) :: rest) m = alookup rest m from by
            simp [alookup, hkm]]
          exact ih

theorem mergeChain_append (tbl : List (String × List Node))
    (xs ys : List Template) :
    mergeChain tbl (xs ++ ys) = mergeChain (mergeChain tbl xs) ys := by
  induction xs generalizing tbl with
  | nil => rfl
  | cons T rest ih => exact ih (applyBlocks tbl T.blocks)

theorem mergeChain_blocks_congr (rest : List Template) :
    ∀ (rest2 : List Template) (tbl : List (String × List Node)),
      rest.map Template.blocks = rest2.map Template.blocks →
      mergeChain tbl rest = mergeChain tbl rest2 := by
  induction rest with
  | nil =>
      intro rest2 tbl h
      cases rest2 with
      | nil => rfl
      | cons T2 r2 => cases h
  | cons T r ih =>
      intro rest2 tbl h
      cases rest2 with
      | nil => cases h
      | cons T2 r2 =>
          simp only [List.map_cons, List.cons.injEq] at h
          show mergeChain (applyBlocks tbl T.blocks) r
            = mergeChain (applyBlocks tbl T2.blocks) r2
          rw [h.1]
          exact ih r2 (applyBlocks tbl T2.blocks) h.2

theorem buildChainAux_modify (L : List (String × Template)) (pn : String)
    (ns : List Node)
    (hpn : ∀ T, alookup L pn = some T → T.extendsRef ≠ none)
    (v : List String) (t : Template) :
    ∀ t2, (t2 = t ∨ (t2 = setNodes t ns ∧ t.extendsRef ≠ none)) →
      (∀ e, buildChainAux L v t = .error e →
        buildChainAux (modifyNodes L pn ns) v t2 = .error e) ∧
      (∀ c, buildChainAux L v t = .ok c →
        ∃ c2, buildChainAux (modifyNodes L pn ns) v t2 = .ok c2 ∧
          c2.head? = c.head? ∧ c2.map Template.blocks = c.map Template.blocks) := by
  induction v, t using buildChainAux.induct L with
  | case1 v t hext =>
      intro t2 hrel
      have ht2 : t2 = t := by
        cases hrel with
        | inl h => exact h
        | inr h => exact absurd hext h.2
      subst ht2
      constructor
      · intro e he
        rw [buildChainAux_root L v t2 hext] at he
        cases he
      · intro c hc
        rw [buildChainAux_root L v t2 hext] at hc
        cases hc
        refine ⟨[t2], buildChainAux_root (modifyNodes L pn ns) v t2 hext, rfl, rfl⟩
  | case2 v t p hext hv =>
      intro t2 hrel
      have hext2 : t2.extendsRef = some p := by
        cases hrel with
        | inl h => rw [h, hext]
        | inr h => rw [h.1]; exact hext
      constructor
      · intro e he
        rw [buildChainAux_cyclic L v t p hext hv] at he
        cases he
        exact buildChainAux_cyclic (modifyNodes L pn ns) v t2 p hext2 hv
      · intro c hc
        rw [buildChainAux_cyclic L v t p hext hv] at hc
        cases hc
  | case3 v t p hext hv hl =>
      intro t2 hrel
      have hext2 : t2.extendsRef = some p := by
        cases hrel with
        | inl h => rw [h, hext]
        | inr h => rw [h.1]; exact hext
      have hl2 : alookup (modifyNodes L pn ns) p = none := by
        rw [alookup_modifyNodes]
        by_cases hp : p = pn
        · subst hp
          simp [hl]
        · simp [hp, hl]
      constructor
      · intro e he
        rw [buildChainAux_missing L v t p hext hv hl] at he
        cases he
        exact buildChainAux_missing (modifyNodes L pn ns) v t2 p hext2 hv hl2
      · intro c hc
        rw [buildChainAux_missing L v t p hext hv hl] at hc
        cases hc
  | case4 v t p hext hv parent hl e0 herr ih =>
      intro t2 hrel
      have hext2 : t2.extendsRef = some p := by
        cases hrel with
        | inl h => rw [h, hext]
        | inr h => rw [h.1]; exact hext
      obtain ⟨parent2, hl2, hrelp⟩ :
          ∃ parent2, alookup (modifyNodes L pn ns) p = some parent2 ∧
            (parent2 = parent ∨
              (parent2 = setNodes parent ns ∧ parent.extendsRef ≠ none)) := by
        rw [alookup_modifyNodes]
        by_cases hp : p = pn
        · subst hp
          exact ⟨setNodes parent ns, by simp [hl], Or.inr ⟨rfl, hpn parent hl⟩⟩
        · exact ⟨parent, by simp [hp, hl], Or.inl rfl⟩
      have hrec2 := (ih parent2 hrelp).1 e0 herr
      constructor
      · intro e he
        rw [buildChainAux_step L v t parent p hext hv hl, herr] at he
        cases he
        rw [buildChainAux_step (modifyNodes L pn ns) v t2 parent2 p hext2 hv hl2,
          hrec2]
      · intro c hc
        rw [buildChainAux_step L v t parent p hext hv hl, herr] at hc
        cases hc
  | case5 v t p hext hv parent hl chain hok ih =>
      intro t2 hrel
      have hext2 : t2.extendsRef = some p := by
        cases hrel with
        | inl h => rw [h, hext]
        | inr h => rw [h.1]; exact hext
      have hblocks2 : t2.blocks = t.blocks := by
        cases hrel with
        | inl h => rw [h]
        | inr h => rw [h.1]; rfl
      obtain ⟨parent2, hl2, hrelp⟩ :
          ∃ parent2, alookup (modifyNodes L pn ns) p = some parent2 ∧
            (parent2 = parent ∨
              (parent2 = setNodes parent ns ∧ parent.extendsRef ≠ none)) := by
        rw [alookup_modifyNodes]
        by_cases hp : p = pn
        · subst hp
          exact ⟨setNodes parent ns, by simp [hl], Or.inr ⟨rfl, hpn parent hl⟩⟩
        · exact ⟨parent, by simp [hp, hl], Or.inl rfl⟩
      obtain ⟨c2, hok2, hhead2, hmap2⟩ := (ih parent2 hrelp).2 chain hok
      constructor
      · intro e he
        rw [buildChainAux_step L v t parent p hext hv hl, hok] at he
        cases he
      · intro c hc
        rw [buildChainAux_step L v t parent p hext hv hl, hok] at hc
        cases hc
        refine ⟨c2 ++ [t2], ?_, ?_, ?_⟩
        · rw [buildChainAux_step (modifyNodes L pn ns) v t2 parent2 p hext2 hv hl2,
            hok2]
        · obtain ⟨a, c2x, hc2eq⟩ : ∃ a c2x, c2 = a :: c2x := by
            cases hc2 : c2 with
            | nil =>
                rw [hc2] at hok2
                exact absurd rfl
                  (buildChainAux_ok_ne_nil (modifyNodes L pn ns) (p :: v) parent2
                    [] hok2)
            | cons a c2x => exact ⟨a, c2x, rfl⟩
          obtain ⟨b, chx, hcheq⟩ : ∃ b chx, chain = b :: chx := by
            cases hch : chain with
            | nil =>
                rw [hch] at hok
                exact absurd rfl
                  (buildChainAux_ok_ne_nil L (p :: v) parent [] hok)
            | cons b chx => exact ⟨b, chx, rfl⟩
          subst hc2eq
          subst hcheq
          simpa using hhead2
        · rw [List.map_append, List.map_append, hmap2]
          simp [hblocks2]

theorem assemble_congr (root : Template) (rest rest2 : List Template)
    (h : mergeChain (defaultTable root) rest
      = mergeChain (defaultTable root) rest2) :
    assemble root rest = assemble root rest2 := by
  simp [assemble, h]

/-- C8: the resolved output is built only from the root's node structure and
the final block table, so top-level content of a non-root template outside
any block never appears in it: replacing the starting (extending) template's
node sequence, or the node sequence of any loader entry whose template has
an extends reference, leaves the resolve result unchanged. -/
theorem resolve_nonroot_nodes_irrelevant :
    (∀ (t : Template) (L : List (String × Template)) (p : String) (ns : List Node),
      t.extendsRef = some p → resolve (setNodes t ns) L = resolve t L) ∧
    (∀ (t : Template) (L : List (String × Template)) (pn : String) (ns : List Node),
      (∀ T, alookup L pn = some T → T.extendsRef ≠ none) →
      resolve t (modifyNodes L pn ns) = resolve t L) := by
  constructor
  · intro t L p ns hext
    have hext2 : (setNodes t ns).extendsRef = some p := hext
    cases hl : alookup L p with
    | none =>
        rw [resolve, buildChainAux_missing L [] (setNodes t ns) p hext2 (by simp) hl,
          resolve, buildChainAux_missing L [] t p hext (by simp) hl]
    | some parent =>
        cases hrec : buildChainAux L [p] parent with
        | error e =>
            rw [resolve, buildChainAux_step L [] (setNodes t ns) parent p hext2
              (by simp) hl, hrec,
              resolve, buildChainAux_step L [] t parent p hext (by simp) hl, hrec]
        | ok chain =>
            obtain ⟨root, restc, hcheq⟩ : ∃ root restc, chain = root :: restc := by
              cases hch : chain with
              | nil =>
                  rw [hch] at hrec
                  exact absurd rfl (buildChainAux_ok_ne_nil L [p] parent [] hrec)
              | cons root restc => exact ⟨root, restc, rfl⟩
            subst hcheq
            rw [resolve, buildChainAux_step L [] (setNodes t ns) parent p hext2
              (by simp) hl, hrec,
              resolve, buildChainAux_step L [] t parent p hext (by simp) hl, hrec]
            show Except.ok (assemble root (restc ++ [setNodes t ns]))
              = Except.ok (assemble root (restc ++ [t]))
            rw [assemble_congr root (restc ++ [setNodes t ns]) (restc ++ [t])]
            rw [mergeChain_append, mergeChain_append]
            rfl
  · intro t L pn ns hpn
    cases hres : buildChainAux L [] t with
    | error e =>
        have h2 := (buildChainAux_modify L pn ns hpn [] t t (Or.inl rfl)).1 e hres
        rw [resolve, h2, resolve, hres]
    | ok c =>
        obtain ⟨root, rest, hceq⟩ : ∃ root rest, c = root :: rest := by
          cases hch : c with
          | nil =>
              rw [hch] at hres
              exact absurd rfl (buildChainAux_ok_ne_nil L [] t [] hres)
          | cons root rest => exact ⟨root, rest, rfl⟩
        subst hceq
        obtain ⟨c2, hok2, hhead2, hmap2⟩ :=
          (buildChainAux_modify L pn ns hpn [] t t (Or.inl rfl)).2 _ hres
        obtain ⟨root2, rest2, hc2eq⟩ : ∃ root2 rest2, c2 = root2 :: rest2 := by
          cases hch : c2 with
          | nil =>
              rw [hch] at hok2
              exact absurd rfl
                (buildChainAux_ok_ne_nil (modifyNodes L pn ns) [] t [] hok2)
          | cons root2 rest2 => exact ⟨root2, rest2, rfl⟩
        subst hc2eq
        have hroot : root2 = root := by simpa using hhead2
        have hrest : rest2.map Template.blocks = rest.map Template.blocks := by
          have h := hmap2
          simp only [List.map_cons, List.cons.injEq] at h
          exact h.2
        rw [resolve, hok2, resolve, hres, hroot]
        show Except.ok (assemble root rest2) = Except.ok (assemble root rest)
        rw [assemble_congr root rest2 rest
          (mergeChain_blocks_congr rest2 rest (defaultTable root) hrest)]

/-- C8 witness: junk nodes added to the extending child and to the middle
template of a three-level chain leave both resolve results unchanged. -/
theorem resolve_nonroot_nodes_irrelevant_witness :
    (resolve (setNodes exChild [Node.text "junk"]) [("layout", exRoot)]
      = resolve exChild [("layout", exRoot)]) ∧
    (resolve exLeaf (modifyNodes [("base", exGrand), ("mid", exMid)] "mid"
        [Node.text "junk"])
      = resolve exLeaf [("base", exGrand), ("mid", exMid)]) := by
  constructor
  · exact resolve_nonroot_nodes_irrelevant.1 exChild [("layout", exRoot)]
      "layout" [Node.text "junk"] rfl
  · refine resolve_nonroot_nodes_irrelevant.2 exLeaf
      [("base", exGrand), ("mid", exMid)] "mid" [Node.text "junk"] ?_
    intro T hT
    rw [show alookup [("base", exGrand), ("mid", exMid)] "mid" = some exMid
      from rfl] at hT
    cases hT
    simp [exMid]

end LayoutResolver

namespace ShopRoute

/-- An incoming HTTP request as the handler could observe it. -/
structure HttpRequest where
  method : String
  url : String
  headers : List (String × String)
  body : String

/-- The data object passed to res.render by the shop route handler: a
`prods` field and a `docTitle` field.  The products collection is kept
abstract in `α` because `adminData.products` comes from routes/admin.js. -/
structure ShopRenderData (α : Type) where
  prods : α
  docTitle : String

/-- An observable action of an Express handler on its response object or on
the `next` continuation. -/
inductive HandlerAction (α : Type) where
  | render : String → ShopRenderData α → HandlerAction α
  | callNext : HandlerAction α

/-- Embedded from routes/shop.js: the GET / handler reads
`adminData.products` into a local `products` and calls
`res.render('shop', ...)` with `prods` bound to it and docTitle 'Shop';
it touches neither `req` nor `next`. -/
def shopGetHandler {α : Type} (adminProducts : α) (req : HttpRequest) :
    List (HandlerAction α) :=
  let products := adminProducts
  [HandlerAction.render "shop" { prods := products, docTitle := "Shop" }]

/-- C10: for every request, the shop route handler performs exactly one
action: a render of template 'shop' with prods bound to the current
adminData.products value and docTitle 'Shop'; it never calls next, and its
output does not depend on the request. -/
theorem shopGetHandler_renders_shop_once {α : Type} (products : α)
    (req req2 : HttpRequest) :
    shopGetHandler products req
      = [HandlerAction.render "shop" { prods := products, docTitle := "Shop" }] ∧
    shopGetHandler products req = shopGetHandler products req2 ∧
    HandlerAction.callNext ∉ shopGetHandler products req := by
  refine ⟨rfl, rfl, ?_⟩
  simp [shopGetHandler]

end ShopRoute
